import Mathlib

/-!
Verification of the go-swim failure detector against its specification.

Each Go component relevant to the checked properties is embedded as an
executable Lean definition: 32-bit machine arithmetic is modelled as `Nat`
with explicit reduction modulo `2^32`, pointers and channels as plain
values, and the mutation of a structure as a function from the old state to
the new state.  The definitions follow the Go sources of the repository
(`node/seq.go`, `events.go`, `broadcast.go`, the broadcast queue,
`broker.go`, `bucket_list.go`, `shuffle_list.go`, `log2ceil.go`,
`detector.go`); theorems about them follow after all definitions.
-/

namespace Swim

/-! ### Seq (node/seq.go)

A `Seq` is an unsigned 32-bit sequence number; we represent it as a `Nat`
that is kept below `2^32`. -/

/-- Modulus of 32-bit sequence arithmetic, `2^32`. -/
def seqMod : Nat := 4294967296

/-- The constant `maxSeq` from node/seq.go, `2^32 - 1`. -/

def maxSeq : Nat := 4294967295

/-- The constant `halfSeq = maxSeq / 2` from node/seq.go (`2^31 - 1`). -/

def halfSeq : Nat := maxSeq / 2

/-- `Seq.Compare` from node/seq.go: compare sequence `s` to `v`, taking the
window of `2^31` into account.  `s` plays the role of the receiver (`this`
in the Go source) and `v` the argument (`that`). -/

def seqCompare (s v : Nat) : Int :=
  if s < v then
    if v - s > halfSeq then 1 else -1
  else if v < s then
    if s - v > halfSeq then -1 else 1
  else 0

/-- `Seq.Witness` from node/seq.go: advance `s` to `v` unless `v < s`
(a plain unsigned comparison, not the windowed one). -/

def seqWitness (s v : Nat) : Nat :=
  if v < s then s else v

/-- `Seq.Increment` from node/seq.go: 32-bit increment with wrap-around. -/

def seqIncrement (s : Nat) : Nat :=
  (s + 1) % seqMod

/-- Modelled from the spec: the comparison rule claimed in the spec,
"let d = (a - b) mod 2^32; if d == 0 → 0; if d < 2^31 → +1; else → -1".
Used only to compare the claimed rule against `seqCompare`. -/

def seqCompareClaim (a b : Nat) : Int :=
  let d := (a + seqMod - b) % seqMod
  if d = 0 then 0 else if d < 2147483648 then 1 else -1


/-- Node membership state (node.go): the `iota` block starts at 1, so the
zero value (constructor `unknown` here) lies outside `Alive`, `Suspect`,
`Dead` and is reported as "unknown" by `State.String`. -/
inductive State where
  | unknown
  | alive
  | suspect
  | dead
deriving DecidableEq, Repr

/-- The fields of a `Node` (node.go) that the checked properties depend on:
identity, membership state and incarnation number. -/

structure Node where
  Id : Nat
  NodeState : State
  Incarnation : Nat
deriving DecidableEq, Repr

/-- Broadcast tags (events.go): `BroadcastTag{From, Id, Type}`.  The Go
field `Type` is spelled `Ty` because `Type` is reserved in Lean. -/

structure BroadcastTag where
  From : Nat
  Id : Nat
  Ty : Nat
deriving DecidableEq, Repr

/-- The `bcastAlive` constant from events.go. -/

def bcastAlive : Nat := 1

/-- The `bcastSuspect` constant from events.go. -/

def bcastSuspect : Nat := 2

/-- The `bcastDeath` constant from events.go. -/

def bcastDeath : Nat := 3

/-- The `bcastUser` constant from events.go. -/

def bcastUser : Nat := 4

/-- The broadcast event kinds of events.go as a closed sum:
`AliveEvent{From, Node}`, `SuspectEvent{From, Id, Incarnation}`,
`DeathEvent{From, Id, Incarnation}`, `UserEvent{From, Sequence}` (the user
payload is opaque and omitted). -/

inductive BEvent where
  | alive (From : Nat) (node : Node)
  | suspect (From Id Incarnation : Nat)
  | death (From Id Incarnation : Nat)
  | user (From Sequence : Nat)
deriving DecidableEq, Repr

/-- The `Tag()` methods of events.go: `AliveEvent` tags `{e.Id, e.Id,
bcastAlive}`, `SuspectEvent` tags `{e.Id, e.Id, bcastSuspect}`,
`DeathEvent` tags `{e.Id, e.Id, bcastDeath}`, `UserEvent` tags
`{e.From, e.Sequence, bcastUser}`. -/

def BEvent.Tag : BEvent → BroadcastTag
  | .alive _ n => ⟨n.Id, n.Id, bcastAlive⟩
  | .suspect _ i _ => ⟨i, i, bcastSuspect⟩
  | .death _ i _ => ⟨i, i, bcastDeath⟩
  | .user f s => ⟨f, s, bcastUser⟩

/-- The `Seq()` methods of events.go: the incarnation number of the event
(the sequence number for a user event). -/

def BEvent.seq : BEvent → Nat
  | .alive _ n => n.Incarnation
  | .suspect _ _ inc => inc
  | .death _ _ inc => inc
  | .user _ s => s

/-- The `Source()` methods of events.go (newer revision): the `From` field
of the event. -/

def BEvent.Source : BEvent → Nat
  | .alive f _ => f
  | .suspect f _ _ => f
  | .death f _ _ => f
  | .user f _ => f

/-! ### Broadcasts (broadcast.go) -/

/-- A `Broadcast` (broadcast.go): priority class, transmission attempts,
the event, the optional done channel (represented by an identifier), and
the insertion counter `order` assigned by the broadcast queue. -/

structure Broadcast where
  Class : Nat
  Attempts : Nat
  Event : BEvent
  Done : Option Nat
  order : Nat
deriving DecidableEq, Repr

/-- `Broadcast.Priority` (broadcast.go): `Class * Attempts`, lower is
higher priority. -/

def Broadcast.Priority (b : Broadcast) : Nat :=
  b.Class * b.Attempts

/-- `Broadcast.Invalidates` (broadcast.go): `b` invalidates `that` when the
tags are equal and `that`'s sequence compares strictly below `b`'s. -/

def Broadcast.Invalidates (b that : Broadcast) : Prop :=
  b.Event.Tag = that.Event.Tag ∧ seqCompare that.Event.seq b.Event.seq < 0

instance (b that : Broadcast) : Decidable (b.Invalidates that) :=
  inferInstanceAs (Decidable (_ ∧ _))


/-- The `live` map of a `BroadcastQueue` together with the `order` counter.
The lazily-memoised `sorted` slice is a cache of `List()` and is not part
of the observable state. -/
structure BroadcastQueue where
  live : List (BroadcastTag × Broadcast)
  order : Nat
deriving DecidableEq, Repr

/-- `NewBroadcastQueue()`: the empty queue. -/

def NewBroadcastQueue : BroadcastQueue := ⟨[], 0⟩

/-- Lookup in the `live` map (the Go `q.live[tag]` read). -/

def findTag (tag : BroadcastTag) : List (BroadcastTag × Broadcast) → Option Broadcast
  | [] => none
  | p :: rest => if p.1 = tag then some p.2 else findTag tag rest

/-- Store into the `live` map (the Go `q.live[tag] = bcast` write). -/

def setTag (tag : BroadcastTag) (b : Broadcast) :
    List (BroadcastTag × Broadcast) → List (BroadcastTag × Broadcast)
  | [] => [(tag, b)]
  | p :: rest => if p.1 = tag then (tag, b) :: rest else p :: setTag tag b rest

/-- The done identifiers of a `Done` field (`[]` for a nil channel). -/

def doneSignal : Option Nat → List Nat
  | some d => [d]
  | none => []

/-- `BroadcastQueue.Push`: assign `bcast.order`, bump the counter; if a live
broadcast exists for the tag, replace it only when the new one invalidates
it, signalling the loser's done channel; otherwise insert.  Returns the new
queue and the signalled done identifiers. -/

def BroadcastQueue.Push (q : BroadcastQueue) (bcast : Broadcast) :
    BroadcastQueue × List Nat :=
  match findTag bcast.Event.Tag q.live with
  | some that =>
    if Broadcast.Invalidates { bcast with order := q.order } that then
      (⟨setTag bcast.Event.Tag { bcast with order := q.order } q.live, q.order + 1⟩,
       doneSignal that.Done)
    else
      (⟨q.live, q.order + 1⟩, [])
  | none => (⟨q.live ++ [(bcast.Event.Tag, { bcast with order := q.order })], q.order + 1⟩, [])

/-- `BroadcastQueue.Prune`: drop every live broadcast satisfying the
predicate, signalling its done channel. -/

def BroadcastQueue.Prune (q : BroadcastQueue) (pred : Broadcast → Bool) :
    BroadcastQueue × List Nat :=
  (⟨q.live.filter (fun p => ! pred p.2), q.order⟩,
   (q.live.filter (fun p => pred p.2)).flatMap (fun p => doneSignal p.2.Done))

/-- `BroadcastQueue.Len`: the number of live broadcasts. -/

def BroadcastQueue.Len (q : BroadcastQueue) : Nat :=
  q.live.length

/-- Ordering used by `BroadcastQueue.List` (the `byPriority` sort): by
priority ascending, ties broken by insertion order. -/

def byPriorityLE (x y : Broadcast) : Bool :=
  if x.Priority = y.Priority then x.order ≤ y.order
  else x.Priority < y.Priority

/-- `BroadcastQueue.List`: the live broadcasts sorted by `byPriority`. -/

def BroadcastQueue.List (q : BroadcastQueue) : List Broadcast :=
  (q.live.map (·.2)).mergeSort byPriorityLE


/-- An operation applied to the broadcast queue by the broker. -/
inductive QOp where
  | push (b : Broadcast)
  | prune (pred : Broadcast → Bool)

/-- Run a sequence of queue operations, accumulating the signalled done
identifiers. -/

def runOps : BroadcastQueue → List QOp → BroadcastQueue × List Nat
  | q, [] => (q, [])
  | q, op :: rest =>
    let r := match op with
      | .push b => q.Push b
      | .prune p => q.Prune p
    let r2 := runOps r.1 rest
    (r2.1, r.2 ++ r2.2)

/-- The done identifiers currently held by live broadcasts. -/

def liveDones (q : BroadcastQueue) : List Nat :=
  q.live.flatMap (fun p => doneSignal p.2.Done)

/-- Whether an operation pushes a broadcast carrying done identifier `d`. -/

def QOp.pushesDone (d : Nat) : QOp → Prop
  | .push b => b.Done = some d
  | .prune _ => False

instance (d : Nat) : (op : QOp) → Decidable (op.pushesDone d)
  | .push b => inferInstanceAs (Decidable (b.Done = some d))
  | .prune _ => isFalse id

/-- One step of the partition loop in `BucketList.SetNext`: with `l`
unallocated nodes and bucket index `i`, the Go code computes `q = 1 << i`,
`d = (q << 1) - 1` and `n = (l*q + d - 1) / d`, the ceiling of
`l * 2^i / (2^(i+1) - 1)`. -/
def takeCeil (l i : Nat) : Nat :=
  (l * 2 ^ i + (2 * 2 ^ i - 1) - 1) / (2 * 2 ^ i - 1)

/-- The descending population loop of `SetNext` (`for i := k - 1; i > 0;
i -= 1`): bucket `i` receives the last `takeCeil |unallocated| i` nodes of
the still-unallocated prefix, and bucket 0 receives the remainder.  The
result lists bucket 0 first. -/

def partAux {α : Type} : Nat → List α → List (List α)
  | 0, u => [u]
  | i + 1, u =>
    partAux i (u.take (u.length - takeCeil u.length (i + 1))) ++
      [u.drop (u.length - takeCeil u.length (i + 1))]

/-- `BucketList.SetNext` restricted to its partition of the sorted node
list into `k` buckets (the per-bucket `ShuffleList`s receive exactly these
segments). -/

def SetNextPartition {α : Type} (k : Nat) (nodes : List α) : List (List α) :=
  if k = 0 then [] else partAux (k - 1) nodes

/-- The de Bruijn table from log2ceil.go. -/
def deBruijn : List Nat := [0, 1, 28, 2, 29, 14, 24, 3, 30, 22, 20, 15, 25, 17, 4,
  8, 31, 27, 13, 23, 21, 19, 16, 7, 26, 12, 18, 6, 11, 5, 10, 9]

/-- `log2ceil` from log2ceil.go: round the 32-bit value up to the next
power of two by smearing the top bit rightward (skipped when the value is
already a power of two or zero), then read off the exponent with the de
Bruijn multiplication `(v * 0x077CB531) >> 27`. -/

def log2ceil (x : Nat) : Nat :=
  let v := x % seqMod
  let v := if v &&& (v - 1) ≠ 0 then
      let v := v ||| (v >>> 1)
      let v := v ||| (v >>> 2)
      let v := v ||| (v >>> 4)
      let v := v ||| (v >>> 8)
      let v := v ||| (v >>> 16)
      (v + 1) % seqMod
    else v
  deBruijn.getD (((v * 125613361) % seqMod) >>> 27) 0

/-- Reference definition of the ceiling of the base-2 logarithm via the
recurrence `⌈log₂ m⌉ = ⌈log₂ ⌈m/2⌉⌉ + 1` for `m ≥ 2`, with structural
fuel (32 suffices for every 32-bit value). -/

def cLog2Fuel : Nat → Nat → Nat
  | 0, _ => 0
  | fuel + 1, m => if 2 ≤ m then cLog2Fuel fuel ((m + 1) / 2) + 1 else 0

/-- The ceiling of the base-2 logarithm of a 32-bit value (`0` for
`m ≤ 1`). -/

def cLog2 (m : Nat) : Nat := cLog2Fuel 32 m

/-- `Detector.RetransmitLimit` (detector.go): `i := log2ceil(n+1) / 3`
(integer division), raised to `1` if smaller, times `RetransmitMult`. -/

def RetransmitLimit (mult n : Nat) : Nat :=
  mult * (if log2ceil (n + 1) / 3 < 1 then 1 else log2ceil (n + 1) / 3)

/-- `Detector.SuspicionDuration` (detector.go): the same factor times
`SuspicionMult` and the probe interval `T`. -/

def SuspicionDuration (mult n T : Nat) : Nat :=
  mult * (if log2ceil (n + 1) / 3 < 1 then 1 else log2ceil (n + 1) / 3) * T

/-- The state of a `ShuffleList`: the active round's nodes, the optional
pending next-round list, and the cursor. -/
structure ShuffleList (α : Type) where
  Nodes : List α
  NextNodes : Option (List α)
  nextIndex : Nat

/-- `ShuffleList.Shuffle`: swap in the pending next-round list if set, then
randomise the active list; `perm` stands for the Fisher–Yates outcome. -/

def ShuffleList.ShuffleWith {α : Type} (perm : List α → List α) (l : ShuffleList α) :
    ShuffleList α :=
  match l.NextNodes with
  | some ns => ⟨perm ns, none, l.nextIndex⟩
  | none => ⟨perm l.Nodes, none, l.nextIndex⟩

/-- The tail of `ShuffleList.Next` after the optional shuffle, with cursor
value `i`: return `nil` on an empty list, the single element (without
advancing the cursor) on a singleton, and otherwise the element at `i`,
advancing the cursor. -/

def nextAfter {α : Type} (l : ShuffleList α) (i : Nat) : Option α × ShuffleList α :=
  if l.Nodes.length = 0 then (none, l)
  else if l.Nodes.length = 1 then (l.Nodes.get? 0, l)
  else (l.Nodes.get? i, ⟨l.Nodes, l.NextNodes, i + 1⟩)

/-- `ShuffleList.Next`: shuffle and reset the cursor when it has passed the
end of the active list, then select. -/

def ShuffleList.Next {α : Type} (perm : List α → List α) (l : ShuffleList α) :
    Option α × ShuffleList α :=
  if l.Nodes.length ≤ l.nextIndex then nextAfter (l.ShuffleWith perm) 0
  else nextAfter l l.nextIndex

/-- Run consecutive `Next()` calls, one shuffle outcome per call,
collecting the returned nodes. -/

def runNexts {α : Type} : List (List α → List α) → ShuffleList α →
    List (Option α) × ShuffleList α
  | [], l => ([], l)
  | p :: ps, l =>
    let r := ShuffleList.Next p l
    let r2 := runNexts ps r.2
    (r.1 :: r2.1, r2.2)

/-- The transposition of a two-element list: one of the two outcomes of a
uniform Fisher–Yates shuffle on two elements. -/
def swapPerm : List Nat → List Nat
  | [x, y] => [y, x]
  | l => l

/-- The message envelope used by the broker and detector: sender,
recipient, incarnation and the ordered event list (`AddEvent` appends). -/
structure Message where
  From : Nat
  To : Nat
  Incarnation : Nat
  events : List BEvent
deriving DecidableEq, Repr

/-- `Message.AddEvent` for a broadcast event: append to the event list. -/

def Message.AddEvent (m : Message) (e : BEvent) : Message :=
  { m with events := m.events ++ [e] }

/-- The attach loop of `Broker.encodeWithBroadcasts` (broker.go): for each
broadcast of `bcasts[:max]` in priority order, skip it when the message's
recipient equals the broadcast's source (`coded.Message.To ==
bcast.Event.Source()`), otherwise append its event to the message and
increment its `Attempts`.  Returns the appended events and the broadcasts
after the loop. -/

def attachBroadcasts (toId : Nat) : List Broadcast → List BEvent × List Broadcast
  | [] => ([], [])
  | b :: rest =>
    let r := attachBroadcasts toId rest
    if toId ≠ b.Event.Source then
      (b.Event :: r.1, { b with Attempts := b.Attempts + 1 } :: r.2)
    else
      (r.1, b :: r.2)

/-- `Broker.encodeWithBroadcasts`, restricted to its effect on the message
and the broadcast queue: `max` is the piggyback budget computed from the
floating-point estimate (`len(bcasts)` when the transport is unbounded).
The subsequent `Prune` by the retransmit limit and the codec encoding are
separate steps. -/

def encodeWithBroadcasts (toId : Nat) (m : Message) (bcasts : List Broadcast)
    (max : Nat) : Message × List Broadcast :=
  ({ m with events := m.events ++ (attachBroadcasts toId (bcasts.take max)).1 },
   (attachBroadcasts toId (bcasts.take max)).2 ++ bcasts.drop max)

/-- Association-list lookup by node id (the Go `d.nodeMap[id]` read). -/
def lookupId {β : Type} (id : Nat) : List (Nat × β) → Option β
  | [] => none
  | p :: rest => if p.1 = id then some p.2 else lookupId id rest

/-- Association-list in-place update by node id (mutation of the record
pointed to by `d.nodeMap[id]`). -/

def updId {β : Type} (id : Nat) (f : β → β) : List (Nat × β) → List (Nat × β)
  | [] => []
  | p :: rest => if p.1 = id then (p.1, f p.2) :: rest else p :: updId id f rest

/-- The detector fields that `handleStateBroadcast`, `stateUpdate`,
`stateBroadcast` and `lookup` read or write: the local node's identity,
state and incarnation, the global incarnation counter, the peer map, the
active set (mirroring selection-list membership), the suspect set, and a
log of the broadcast events enqueued via `d.Broadcast`.  Wall-clock fields
(`SuspectTime`, `LastAckTime`), the RTT estimator, the cached member list,
the active count and the notification channels are omitted: they do not
feed back into the state logic of these functions. -/

structure Detector where
  LocalId : Nat
  LocalState : State
  LocalIncarnation : Nat
  incarnation : Nat
  nodeMap : List (Nat × Node)
  actives : List Nat
  suspects : List Nat
  bcastLog : List BEvent
deriving DecidableEq, Repr

/-- `Detector.stateBroadcast` (detector.go): enqueue the broadcast matching
the node's current state — `alive(node)`, `suspect(node)` or `death(node)`,
each with `From = d.LocalNode.Id` — and nothing for the zero state. -/

def stateBroadcastEvents (d : Detector) (n : Node) : List BEvent :=
  match n.NodeState with
  | .alive => [.alive d.LocalId n]
  | .suspect => [.suspect d.LocalId n.Id n.Incarnation]
  | .dead => [.death d.LocalId n.Id n.Incarnation]
  | .unknown => []

/-- `Detector.stateUpdate` (detector.go): on Suspect, insert into the
suspect set and fall through to the Alive case, which inserts the node into
the selection list and active set when absent; on Dead, remove it; on an
unknown state, return.  Then assign the node's state, drop it from the
suspect set when no longer suspect, advance its incarnation past a fresh
global increment when `reincarnate` is set, and broadcast the node's new
state. -/

def stateUpdate (d : Detector) (id : Nat) (st : State) (reinc : Bool) : Detector :=
  match st with
  | .unknown => d
  | _ =>
    let d := match st with
      | .suspect =>
        let d2 := { d with suspects :=
          if id ∈ d.suspects then d.suspects else d.suspects ++ [id] }
        if id ∈ d2.actives then d2 else { d2 with actives := d2.actives ++ [id] }
      | .alive =>
        if id ∈ d.actives then d else { d with actives := d.actives ++ [id] }
      | .dead =>
        if id ∈ d.actives then { d with actives := d.actives.erase id } else d
      | .unknown => d
    let d := { d with nodeMap := updId id (fun n => { n with NodeState := st }) d.nodeMap }
    let d := if st ≠ .suspect then { d with suspects := d.suspects.erase id } else d
    let d := if reinc then
        { d with incarnation := seqIncrement d.incarnation,
                 nodeMap := updId id (fun n =>
                   { n with Incarnation :=
                     seqWitness n.Incarnation (seqIncrement d.incarnation) }) d.nodeMap }
      else d
    match lookupId id d.nodeMap with
    | some n => { d with bcastLog := d.bcastLog ++ stateBroadcastEvents d n }
    | none => d

/-- `Detector.lookup` (detector.go): return the record for `id`, creating a
zero-valued one when absent; on a miss, the current state of every active
node is re-broadcast (anti-entropy) before the new record is saved.  (The
RTT hint and address population do not affect the modelled fields.) -/

def lookup (d : Detector) (id : Nat) : Detector × Node :=
  match lookupId id d.nodeMap with
  | some n => (d, n)
  | none =>
    let n : Node := ⟨id, .unknown, 0⟩
    let d := { d with bcastLog := d.bcastLog ++
        d.actives.flatMap (fun aid =>
          match lookupId aid d.nodeMap with
          | some an => stateBroadcastEvents d an
          | none => []) }
    ({ d with nodeMap := d.nodeMap ++ [(id, n)] }, n)

/-- `Detector.handleStateBroadcast` (detector.go): witness the global
incarnation; for a claim about the local node, dispute it — bumping the
local incarnation past a fresh global increment and broadcasting
`Alive(self)` — whenever `cmp < 0 || state != Alive`; for a peer, adopt
state and incarnation when the event's incarnation is strictly newer (for
Alive also the contained `Node`), and call `stateUpdate` with the received
state when it is strictly older. -/

def handleStateBroadcast (d : Detector) (ev : BEvent) (id inc : Nat) (st : State) :
    Detector :=
  let d := { d with incarnation := seqWitness d.incarnation inc }
  if id = d.LocalId then
    if seqCompare d.LocalIncarnation inc < 0 ∨ st ≠ .alive then
      let g := seqIncrement d.incarnation
      let li := seqWitness d.LocalIncarnation g
      { d with incarnation := g, LocalIncarnation := li,
               bcastLog := d.bcastLog ++ [.alive d.LocalId ⟨d.LocalId, d.LocalState, li⟩] }
    else d
  else
    let r := lookup d id
    if seqCompare r.2.Incarnation inc < 0 then
      let d := { r.1 with nodeMap := updId id (fun n =>
        { n with Incarnation := seqWitness n.Incarnation inc }) r.1.nodeMap }
      let d := if st = .alive then
          match ev with
          | .alive _ en => { d with nodeMap := updId id (fun _ => en) d.nodeMap }
          | _ => d
        else d
      stateUpdate d id st false
    else if seqCompare r.2.Incarnation inc > 0 then
      stateUpdate r.1 id st false
    else r.1

/-- `Detector.handleAlive` (detector.go). -/

def handleAlive (d : Detector) (From : Nat) (n : Node) : Detector :=
  handleStateBroadcast d (.alive From n) n.Id n.Incarnation .alive

/-- `Detector.handleSuspect` (detector.go). -/

def handleSuspect (d : Detector) (From id inc : Nat) : Detector :=
  handleStateBroadcast d (.suspect From id inc) id inc .suspect

/-- `Detector.handleDeath` (detector.go). -/

def handleDeath (d : Detector) (From id inc : Nat) : Detector :=
  handleStateBroadcast d (.death From id inc) id inc .dead


end Swim

namespace Swim

/-- C4 counterexample: the spec claims `compare(2^31, 0) = +1`, but the code
returns `-1` there; moreover at `(0, 2^31)` the code disagrees with the
claimed formula `d = (a-b) mod 2^32, +1 iff d < 2^31` (the code yields `+1`
while the formula yields `-1`). -/
theorem C4_counterexample :
    seqCompare 2147483648 0 = -1 ∧
    seqCompare 0 2147483648 ≠ seqCompareClaim 0 2147483648 := by
  decide

/-- C4 (amended): for 32-bit values `a`, `b` with `d = (a - b) mod 2^32`,
`Seq.Compare` returns `0` when `d = 0`, `+1` when `0 < d < 2^31`, `-1` when
`d > 2^31`, and at the half-window boundary `d = 2^31` it returns `+1` when
`a < b` as plain integers and `-1` when `a > b`.  Concretely
`compare(0, 2^32-1) = +1`, `compare(2^31, 0) = -1` (not `+1` as claimed),
and `compare(2^31+1, 0) = -1`. -/

theorem C4_seq_compare_amended (a b : Nat) (ha : a < seqMod) (hb : b < seqMod) :
    ((a + seqMod - b) % seqMod = 0 → seqCompare a b = 0) ∧
    (0 < (a + seqMod - b) % seqMod ∧ (a + seqMod - b) % seqMod < 2147483648 →
      seqCompare a b = 1) ∧
    ((a + seqMod - b) % seqMod > 2147483648 → seqCompare a b = -1) ∧
    ((a + seqMod - b) % seqMod = 2147483648 →
      seqCompare a b = if a < b then 1 else -1) ∧
    seqCompare 0 maxSeq = 1 ∧ seqCompare 2147483648 0 = -1 ∧
    seqCompare 2147483649 0 = -1 := by
  simp only [seqCompare, halfSeq, maxSeq, seqMod] at ha hb ⊢
  refine ⟨fun h => ?_, fun h => ?_, fun h => ?_, fun h => ?_,
    by decide, by decide, by decide⟩ <;> split_ifs <;> omega

/-- C4 witness: instantiate the amended comparison at `a = 0`,
`b = 2^32 - 1` (so `d = 1` and the result is `+1`). -/

theorem C4_seq_compare_amended_witness :
    seqCompare 0 4294967295 = 1 := by
  have h := C4_seq_compare_amended 0 4294967295 (by decide) (by decide)
  exact h.2.1 (by decide)


/-! ### Nodes and events (node.go, events.go) -/


/-- C3 counterexample: a Death event about node 2 with incarnation 5 does
not invalidate a contemporaneous Suspect about node 2 with incarnation 5;
their broadcast tags differ because the tag includes the event type. -/
theorem C3_counterexample :
    ¬ (Broadcast.mk 1 0 (.death 1 2 5) none 0).Invalidates
        (Broadcast.mk 2 0 (.suspect 1 2 5) none 0) ∧
    (BEvent.death 1 2 5).Tag ≠ (BEvent.suspect 1 2 5).Tag := by
  decide

/-- C3 (amended): a Death and a Suspect about the same node id carry
different broadcast tags (the tag includes the event kind), so a Death
never invalidates a Suspect, whatever the incarnations; within the same
kind and node id, `b.Invalidates(a)` holds exactly when `a`'s incarnation
compares strictly older than `b`'s under the windowed `Seq.Compare` — an
equal incarnation never invalidates. -/

theorem C3_invalidation_amended (f1 f2 id i1 i2 c1 c2 t1 t2 o1 o2 : Nat)
    (d1 d2 : Option Nat) :
    ¬ (Broadcast.mk c2 t2 (.death f2 id i2) d2 o2).Invalidates
        (Broadcast.mk c1 t1 (.suspect f1 id i1) d1 o1) ∧
    ((Broadcast.mk c2 t2 (.death f2 id i2) d2 o2).Invalidates
        (Broadcast.mk c1 t1 (.death f1 id i1) d1 o1) ↔
      seqCompare i1 i2 = -1) ∧
    ((Broadcast.mk c2 t2 (.suspect f2 id i2) d2 o2).Invalidates
        (Broadcast.mk c1 t1 (.suspect f1 id i1) d1 o1) ↔
      seqCompare i1 i2 = -1) := by
  have hlt : ∀ a b : Nat, seqCompare a b < 0 ↔ seqCompare a b = -1 := by
    intro a b
    unfold seqCompare
    split_ifs <;> decide
  refine ⟨fun h => ?_, ?_, ?_⟩
  · simp [Broadcast.Invalidates, BEvent.Tag, bcastDeath, bcastSuspect] at h
  · simpa [Broadcast.Invalidates, BEvent.Tag, BEvent.seq] using hlt i1 i2
  · simpa [Broadcast.Invalidates, BEvent.Tag, BEvent.seq] using hlt i1 i2


/-! ### Broadcast queue (broadcast_queue.go, revision with `live`/`order`)

The queue state is the `live` map from tag to broadcast (modelled as an
association list with unique keys, in insertion order) and the `order`
counter.  A done channel is represented by its identifier; every operation
returns the list of identifiers it signalled. -/


/-- C5: pushing `a` into an empty queue and then pushing `b` with the same
tag, where `b` invalidates `a`, leaves a queue of length exactly 1 whose
live entry for the tag is `b` (with its assigned insertion order), and
signals `a`'s done channel. -/
theorem C5_queue_invalidation (a b : Broadcast)
    (htag : b.Event.Tag = a.Event.Tag) (hinv : b.Invalidates a) :
    ((NewBroadcastQueue.Push a).1.Push b).1.Len = 1 ∧
    findTag b.Event.Tag ((NewBroadcastQueue.Push a).1.Push b).1.live =
      some { b with order := 1 } ∧
    ((NewBroadcastQueue.Push a).1.Push b).2 = doneSignal a.Done := by
  have hinv' : Broadcast.Invalidates { b with order := 1 } { a with order := 0 } := hinv
  simp only [NewBroadcastQueue, BroadcastQueue.Push, findTag, setTag]
  simp only [htag, if_pos rfl, hinv', if_pos, BroadcastQueue.Len]
  simp [findTag]

/-- C5 witness: a Suspect broadcast about node 2 at incarnation 3 with done
channel 7, invalidated by a Suspect at incarnation 4. -/

theorem C5_queue_invalidation_witness :
    ((NewBroadcastQueue.Push (Broadcast.mk 1 0 (.suspect 1 2 3) (some 7) 0)).1.Push
        (Broadcast.mk 1 0 (.suspect 1 2 4) none 0)).1.Len = 1 ∧
    findTag (BEvent.suspect 1 2 4).Tag
        ((NewBroadcastQueue.Push (Broadcast.mk 1 0 (.suspect 1 2 3) (some 7) 0)).1.Push
          (Broadcast.mk 1 0 (.suspect 1 2 4) none 0)).1.live =
      some (Broadcast.mk 1 0 (.suspect 1 2 4) none 1) ∧
    ((NewBroadcastQueue.Push (Broadcast.mk 1 0 (.suspect 1 2 3) (some 7) 0)).1.Push
        (Broadcast.mk 1 0 (.suspect 1 2 4) none 0)).2 = [7] :=
  C5_queue_invalidation
    (Broadcast.mk 1 0 (.suspect 1 2 3) (some 7) 0)
    (Broadcast.mk 1 0 (.suspect 1 2 4) none 0)
    (by decide) (by decide)


/-! ### Queue operation traces (for the frame property of a losing push) -/


theorem mem_doneSignal {d : Nat} {o : Option Nat} (h : d ∈ doneSignal o) :
    o = some d := by
  cases o with
  | none => simp [doneSignal] at h
  | some x =>
    simp [doneSignal] at h
    rw [h]

theorem findTag_mem {tag : BroadcastTag} {l : List (BroadcastTag × Broadcast)}
    {b : Broadcast} (h : findTag tag l = some b) : (tag, b) ∈ l := by
  induction l with
  | nil => simp [findTag] at h
  | cons p rest ih =>
    rw [findTag] at h
    split at h
    · rename_i hp
      cases h
      cases p
      cases hp
      exact List.mem_cons_self _ _
    · exact List.mem_cons_of_mem _ (ih h)

theorem mem_dones_setTag {d : Nat} {tag : BroadcastTag} {nb : Broadcast}
    {l : List (BroadcastTag × Broadcast)}
    (h : d ∈ (setTag tag nb l).flatMap (fun p => doneSignal p.2.Done)) :
    d ∈ l.flatMap (fun p => doneSignal p.2.Done) ∨ d ∈ doneSignal nb.Done := by
  induction l with
  | nil => simpa [setTag] using h
  | cons p rest ih =>
    rw [setTag] at h
    split at h
    · simp only [List.flatMap_cons, List.mem_append] at h ⊢
      tauto
    · simp only [List.flatMap_cons, List.mem_append] at h ⊢
      tauto

theorem push_no_new_done {d : Nat} {q : BroadcastQueue} {b : Broadcast}
    (hq : d ∉ liveDones q) (hb : b.Done ≠ some d) :
    d ∉ (q.Push b).2 ∧ d ∉ liveDones (q.Push b).1 := by
  unfold BroadcastQueue.Push
  cases hfind : findTag b.Event.Tag q.live with
  | none =>
    dsimp only
    refine ⟨by simp, ?_⟩
    intro h
    simp only [liveDones, List.flatMap_append, List.mem_append, List.flatMap_cons,
      List.flatMap_nil, List.append_nil] at h
    rcases h with h | h
    · exact hq h
    · exact hb (mem_doneSignal h)
  | some that =>
    dsimp only
    split
    · constructor
      · intro h
        apply hq
        have hmem := findTag_mem hfind
        simp only [liveDones, List.mem_flatMap]
        exact ⟨(b.Event.Tag, that), hmem, h⟩
      · intro h
        rcases mem_dones_setTag h with h | h
        · exact hq h
        · exact hb (mem_doneSignal h)
    · exact ⟨by simp, hq⟩

theorem prune_no_new_done {d : Nat} {q : BroadcastQueue} {p : Broadcast → Bool}
    (hq : d ∉ liveDones q) :
    d ∉ (q.Prune p).2 ∧ d ∉ liveDones (q.Prune p).1 := by
  unfold BroadcastQueue.Prune
  constructor
  · intro h
    apply hq
    simp only [List.mem_flatMap, List.mem_filter] at h
    rcases h with ⟨x, ⟨hx, -⟩, hdx⟩
    simp only [liveDones, List.mem_flatMap]
    exact ⟨x, hx, hdx⟩
  · intro h
    apply hq
    simp only [liveDones, List.mem_flatMap, List.mem_filter] at h ⊢
    rcases h with ⟨x, ⟨hx, -⟩, hdx⟩
    exact ⟨x, hx, hdx⟩

theorem runOps_no_signal {d : Nat} :
    ∀ (ops : List QOp) (q : BroadcastQueue), d ∉ liveDones q →
      (∀ op ∈ ops, ¬ op.pushesDone d) →
      d ∉ (runOps q ops).2 ∧ d ∉ liveDones (runOps q ops).1 := by
  intro ops
  induction ops with
  | nil => intro q hq _; exact ⟨by simp [runOps], hq⟩
  | cons op rest ih =>
    intro q hq hops
    have hop := hops op (List.mem_cons_self op rest)
    have hrest := fun o ho => hops o (List.mem_cons_of_mem op ho)
    cases op with
    | push b =>
      have hb : b.Done ≠ some d := hop
      have h1 := push_no_new_done hq hb
      have h2 := ih (q.Push b).1 h1.2 hrest
      rw [runOps]
      simp only [List.mem_append]
      exact ⟨fun h => h.elim h1.1 h2.1, h2.2⟩
    | prune p =>
      have h1 := prune_no_new_done (q := q) (p := p) hq
      have h2 := ih (q.Prune p).1 h1.2 hrest
      rw [runOps]
      simp only [List.mem_append]
      exact ⟨fun h => h.elim h1.1 h2.1, h2.2⟩

/-- C10: pushing a broadcast `b` that fails to invalidate the live
broadcast `a` for its tag leaves the observable queue state unchanged
(`live`, `Len` and `List` as before, `a` still the live entry), signals
nothing, and — provided `b`'s done identifier is fresh and no later push
reuses it — no sequence of subsequent queue operations ever signals `b`'s
done channel, so a `BroadcastSync` waiting on it blocks forever. -/

theorem C10_losing_push (q : BroadcastQueue) (a b : Broadcast) (d : Nat)
    (hlive : findTag b.Event.Tag q.live = some a)
    (hinv : ¬ b.Invalidates a)
    (hdone : b.Done = some d)
    (hfresh : d ∉ liveDones q) :
    (q.Push b).1.live = q.live ∧
    (q.Push b).1.Len = q.Len ∧
    (q.Push b).1.List = q.List ∧
    (q.Push b).2 = [] ∧
    findTag b.Event.Tag (q.Push b).1.live = some a ∧
    ∀ ops : List QOp, (∀ op ∈ ops, ¬ op.pushesDone d) →
      d ∉ (runOps (q.Push b).1 ops).2 := by
  have hinv2 : ¬ Broadcast.Invalidates { b with order := q.order } a := hinv
  have hpush : q.Push b = (⟨q.live, q.order + 1⟩, []) := by
    unfold BroadcastQueue.Push
    rw [hlive]
    simp [hinv2]
  refine ⟨by rw [hpush], by rw [hpush]; rfl, by rw [hpush]; rfl,
    by rw [hpush], by rw [hpush]; exact hlive, ?_⟩
  intro ops hops
  have hfresh2 : d ∉ liveDones (q.Push b).1 := by rw [hpush]; exact hfresh
  exact (runOps_no_signal ops (q.Push b).1 hfresh2 hops).1

/-- C10 witness: a live Suspect at incarnation 5 for node 2; the losing
push carries incarnation 4 and done channel 9; the subsequent operations
prune everything and push an unrelated broadcast, yet channel 9 is never
signalled. -/

theorem C10_losing_push_witness :
    9 ∉ (runOps
      (((NewBroadcastQueue.Push (Broadcast.mk 2 0 (.suspect 1 2 5) none 0)).1.Push
          (Broadcast.mk 1 0 (.suspect 3 2 4) (some 9) 0)).1)
      [QOp.prune (fun _ => true), QOp.push (Broadcast.mk 2 0 (.alive 1 ⟨4, .alive, 1⟩) none 0)]).2 := by
  have h := C10_losing_push
    ((NewBroadcastQueue.Push (Broadcast.mk 2 0 (.suspect 1 2 5) none 0)).1)
    (Broadcast.mk 2 0 (.suspect 1 2 5) none 0)
    (Broadcast.mk 1 0 (.suspect 3 2 4) (some 9) 0)
    9 (by decide) (by decide) rfl (by decide)
  exact h.2.2.2.2.2
    [QOp.prune (fun _ => true), QOp.push (Broadcast.mk 2 0 (.alive 1 ⟨4, .alive, 1⟩) none 0)]
    (by
      intro op hop
      simp only [List.mem_cons, List.not_mem_nil, or_false] at hop
      rcases hop with h1 | h1 <;> subst h1 <;> decide)


/-! ### Bucket list (bucket_list.go) -/


theorem partAux_flatten {α : Type} : ∀ (i : Nat) (u : List α), (partAux i u).flatten = u := by
  intro i
  induction i with
  | zero => intro u; simp [partAux]
  | succ i ih =>
    intro u
    rw [partAux]
    simp only [List.flatten_append, ih, List.flatten_cons, List.flatten_nil, List.append_nil]
    exact List.take_append_drop _ u

theorem partAux_length {α : Type} : ∀ (i : Nat) (u : List α), (partAux i u).length = i + 1 := by
  intro i
  induction i with
  | zero => intro u; rfl
  | succ i ih =>
    intro u
    rw [partAux]
    simp [ih]

/-- C6: `SetNext` splits the node list into `k` buckets whose contents
concatenate back to the full (sorted) list — so the per-bucket sizes sum to
`n` — with bucket `k-1` receiving exactly the last
`⌈n·2^(k-1)/(2^k - 1)⌉` nodes; for `K = 3` the bucket sizes match the
claimed table for `n = 1..8`, `15` and `22`. -/

theorem C6_bucket_sizes {α : Type} (k : Nat) (nodes : List α) (hk : 1 ≤ k) :
    ((SetNextPartition k nodes).map List.length).sum = nodes.length ∧
    (SetNextPartition k nodes).length = k ∧
    (SetNextPartition k nodes).flatten = nodes ∧
    (2 ≤ k → (SetNextPartition k nodes).getLast? =
      some (nodes.drop (nodes.length - takeCeil nodes.length (k - 1)))) ∧
    ((SetNextPartition 3 (List.range 1)).map List.length = [0, 0, 1] ∧
     (SetNextPartition 3 (List.range 2)).map List.length = [0, 0, 2] ∧
     (SetNextPartition 3 (List.range 3)).map List.length = [0, 1, 2] ∧
     (SetNextPartition 3 (List.range 4)).map List.length = [0, 1, 3] ∧
     (SetNextPartition 3 (List.range 5)).map List.length = [0, 2, 3] ∧
     (SetNextPartition 3 (List.range 6)).map List.length = [0, 2, 4] ∧
     (SetNextPartition 3 (List.range 7)).map List.length = [1, 2, 4] ∧
     (SetNextPartition 3 (List.range 8)).map List.length = [1, 2, 5] ∧
     (SetNextPartition 3 (List.range 15)).map List.length = [2, 4, 9] ∧
     (SetNextPartition 3 (List.range 22)).map List.length = [3, 6, 13]) := by
  have hflat : (SetNextPartition k nodes).flatten = nodes := by
    unfold SetNextPartition
    rw [if_neg (by omega)]
    exact partAux_flatten _ _
  refine ⟨?_, ?_, hflat, ?_, by decide, by decide, by decide, by decide, by decide,
    by decide, by decide, by decide, by decide, by decide⟩
  · have := List.length_flatten (SetNextPartition k nodes)
    rw [hflat] at this
    omega
  · unfold SetNextPartition
    rw [if_neg (by omega)]
    rw [partAux_length]
    omega
  · intro h2
    obtain ⟨j, rfl⟩ : ∃ j, k = j + 2 := ⟨k - 2, by omega⟩
    unfold SetNextPartition
    rw [if_neg (by omega)]
    show (partAux (j + 1) nodes).getLast? = _
    rw [partAux]
    simp

/-- C6 witness: the partition of 15 nodes over 3 buckets sums to 15. -/

theorem C6_bucket_sizes_witness :
    ((SetNextPartition 3 (List.range 15)).map List.length).sum = (List.range 15).length :=
  (C6_bucket_sizes 3 (List.range 15) (by decide)).1


/-! ### log2ceil (log2ceil.go) and the derived limits (detector.go) -/


set_option maxRecDepth 8000 in
theorem log2ceil_eq_cLog2 : ∀ m, m ≤ 1024 → log2ceil m = cLog2 m := by decide

set_option maxRecDepth 8000 in
theorem cLog2_bounds : ∀ m, m ≤ 1024 → 1 ≤ m →
    m ≤ 2 ^ cLog2 m ∧ 2 ^ cLog2 m < 2 * m := by decide

/-- C7 counterexample: at `n = 15` the code computes
`max(1, log2ceil(16) / 3) = max(1, ⌊4/3⌋) = 1`, not
`max(1, ⌈4/3⌉) = 2` as the claim (with the ceiling on the quotient)
requires; so `RetransmitLimit` with `retransmit_mult = 1` is `1`, not
`2`. -/

theorem C7_counterexample :
    RetransmitLimit 1 15 ≠ 1 * max 1 ((cLog2 (15 + 1) + 2) / 3) ∧
    RetransmitLimit 1 15 = 1 ∧ cLog2 16 = 4 ∧ max 1 ((4 + 2) / 3) = 2 ∧
    SuspicionDuration 1 15 1 ≠ 1 * max 1 ((cLog2 (15 + 1) + 2) / 3) * 1 := by
  decide

/-- C7 (amended): for every active count `n ≤ 1023`,
`RetransmitLimit() = retransmit_mult * max(1, ⌊⌈log₂(n+1)⌉ / 3⌋)` and
`SuspicionDuration() = suspicion_mult * max(1, ⌊⌈log₂(n+1)⌉ / 3⌋) * T` —
the ceiling applies to the logarithm (`log2ceil`) and the division by 3 is
the integer floor division.  The last two conjuncts certify that `cLog2`
really is the ceiling of the base-2 logarithm of `n + 1`. -/

theorem C7_limits_amended (mult n T : Nat) (hn : n ≤ 1023) :
    RetransmitLimit mult n = mult * max 1 (cLog2 (n + 1) / 3) ∧
    SuspicionDuration mult n T = mult * max 1 (cLog2 (n + 1) / 3) * T ∧
    n + 1 ≤ 2 ^ cLog2 (n + 1) ∧ 2 ^ cLog2 (n + 1) < 2 * (n + 1) := by
  have he := log2ceil_eq_cLog2 (n + 1) (by omega)
  have hb := cLog2_bounds (n + 1) (by omega) (by omega)
  have hmax : (if log2ceil (n + 1) / 3 < 1 then 1 else log2ceil (n + 1) / 3) =
      max 1 (cLog2 (n + 1) / 3) := by
    rw [he]
    split <;> omega
  exact ⟨by rw [RetransmitLimit, hmax], by rw [SuspicionDuration, hmax], hb.1, hb.2⟩

/-- C7 witness: at `n = 15`, `T = 7`, `retransmit_mult = suspicion_mult =
5`, both limits use the factor `max(1, ⌊4/3⌋) = 1`. -/

theorem C7_limits_amended_witness :
    RetransmitLimit 5 15 = 5 * max 1 (cLog2 16 / 3) ∧
    SuspicionDuration 5 15 7 = 5 * max 1 (cLog2 16 / 3) * 7 := by
  have h := C7_limits_amended 5 15 7 (by decide)
  exact ⟨h.1, h.2.1⟩


/-! ### Shuffle list (shuffle_list.go, revision with `Nodes`/`NextNodes`)

The Fisher–Yates shuffle draws from the process-wide RNG; its outcome is
abstracted by a permutation-producing function supplied per `Next()` call
(uniform Fisher–Yates with `rand.Intn(i+1)` can produce any permutation,
including the identity). -/


theorem runNexts_inorder {α : Type} (xs : List α) (h2 : 2 ≤ xs.length) :
    ∀ (perms : List (List α → List α)) (j : Nat), perms.length + j = xs.length →
      (runNexts perms ⟨xs, none, j⟩).1 = (xs.drop j).map some := by
  intro perms
  induction perms with
  | nil =>
    intro j hj
    simp only [List.length_nil, Nat.zero_add] at hj
    have : xs.drop j = [] := List.drop_eq_nil_of_le (by omega)
    simp [runNexts, this]
  | cons p ps ih =>
    intro j hj
    simp only [List.length_cons] at hj
    have hjlt : j < xs.length := by omega
    have c1 : ¬ (xs.length ≤ j) := by omega
    have c2 : xs.length ≠ 0 := by omega
    have c3 : xs.length ≠ 1 := by omega
    have hnext : ShuffleList.Next p ⟨xs, none, j⟩ =
        (xs.get? j, ⟨xs, none, j + 1⟩) := by
      simp [ShuffleList.Next, nextAfter, c1, c2, c3]
    rw [runNexts]
    rw [hnext]
    have hrest := ih (j + 1) (by omega)
    simp only [hrest]
    rw [List.drop_eq_getElem_cons hjlt, List.map_cons]
    rw [List.get?_eq_getElem?, List.getElem?_eq_getElem hjlt]

/-- C8 (amended): a round-aligned block of `N` consecutive `Next()` calls —
one starting with the cursor at 0 on a fresh round, or at/past the end of
the active list so that the round begins with a shuffle — returns the
elements of one permutation of the list: with `N` distinct nodes, every
element is returned exactly once in the block, for every possible outcome
of the shuffles.  (The counterexample shows this fails for windows that
straddle a shuffle boundary.) -/

theorem C8_round_coverage {α : Type} [DecidableEq α] (s : ShuffleList α)
    (perms : List (List α → List α))
    (hnn : s.NextNodes = none)
    (hlen : perms.length = s.Nodes.length)
    (hN : 1 ≤ s.Nodes.length)
    (hstart : s.nextIndex = 0 ∨ s.Nodes.length ≤ s.nextIndex)
    (hperm : ∀ p ∈ perms, ∀ xs : List α, (p xs).Perm xs) :
    ∃ ys : List α, (runNexts perms s).1 = ys.map some ∧ ys.Perm s.Nodes ∧
      (s.Nodes.Nodup → ∀ a ∈ s.Nodes, ys.count a = 1) := by
  obtain ⟨xs, nn, j⟩ := s
  simp only at hlen hN hstart
  cases hnn
  suffices h : ∃ ys : List α, (runNexts perms (⟨xs, none, j⟩ : ShuffleList α)).1 = ys.map some ∧
      ys.Perm xs by
    obtain ⟨ys, hy1, hy2⟩ := h
    refine ⟨ys, hy1, hy2, fun hdup a ha => ?_⟩
    classical
    rw [hy2.count_eq]
    exact List.count_eq_one_of_mem hdup ha
  classical
  rcases Nat.lt_or_ge xs.length 2 with h1 | h2
  · -- singleton list: every call returns the sole element
    have hxs1 : xs.length = 1 := by omega
    obtain ⟨x, rfl⟩ : ∃ x, xs = [x] := by
      cases xs with
      | nil => simp at hxs1
      | cons a t => cases t with
        | nil => exact ⟨a, rfl⟩
        | cons b t2 => simp at hxs1
    obtain ⟨p, rfl⟩ : ∃ p, perms = [p] := by
      cases perms with
      | nil => simp at hlen
      | cons p ps => cases ps with
        | nil => exact ⟨p, rfl⟩
        | cons q ps2 => simp at hlen
    have hp := hperm p (by simp)
    rcases hstart with hj | hj
    · cases hj
      refine ⟨[x], ?_, List.Perm.refl _⟩
      simp [runNexts, ShuffleList.Next, nextAfter]
    · -- cursor past the end: the call shuffles the singleton first
      obtain ⟨y, hy⟩ : ∃ y, p [x] = [y] := by
        have := (hp [x]).length_eq
        cases hpx : p [x] with
        | nil => rw [hpx] at this; simp at this
        | cons a t =>
          rw [hpx] at this
          cases t with
          | nil => exact ⟨a, rfl⟩
          | cons b t2 => simp at this
      have hyx : y = x := by
        have h3 := hp [x]
        rw [hy] at h3
        have h4 : y ∈ [x] := h3.mem_iff.mp (by simp)
        simpa using h4
      refine ⟨[x], ?_, List.Perm.refl _⟩
      simp only [List.length_singleton] at hj
      simp [runNexts, ShuffleList.Next, ShuffleList.ShuffleWith, nextAfter, hj, hy, hyx]
  · -- at least two nodes
    rcases hstart with hj | hj
    · cases hj
      refine ⟨xs, ?_, List.Perm.refl _⟩
      have := runNexts_inorder xs h2 perms 0 (by omega)
      simpa using this
    · cases perms with
      | nil => simp at hlen; omega
      | cons p ps =>
        have hp : (p xs).Perm xs := hperm p (by simp) xs
        have hplen : (p xs).length = xs.length := hp.length_eq
        have hsw : ShuffleList.ShuffleWith p ⟨xs, none, j⟩ = ⟨p xs, none, j⟩ := rfl
        have hA : ¬ ((p xs).length = 0) := by omega
        have hB : ¬ ((p xs).length = 1) := by omega
        have hnext : ShuffleList.Next p ⟨xs, none, j⟩ =
            ((p xs).get? 0, ⟨p xs, none, 1⟩) := by
          unfold ShuffleList.Next
          rw [if_pos (show (⟨xs, none, j⟩ : ShuffleList α).Nodes.length ≤
              (⟨xs, none, j⟩ : ShuffleList α).nextIndex from hj)]
          rw [hsw]
          unfold nextAfter
          dsimp only
          rw [if_neg hA, if_neg hB]
        rw [runNexts, hnext]
        have hrest := runNexts_inorder (p xs) (by omega) ps 1
          (by simp only [List.length_cons] at hlen; omega)
        simp only [hrest]
        refine ⟨p xs, ?_, hp⟩
        have h0 : 2 ≤ (p xs).length := by omega
        cases hpxs : p xs with
        | nil => rw [hpxs] at h0; simp at h0
        | cons a t => simp [List.get?]


theorem swapPerm_perm (xs : List Nat) : (swapPerm xs).Perm xs := by
  unfold swapPerm
  split
  · exact List.Perm.swap _ _ _
  · exact List.Perm.refl _

/-- C8 counterexample: on the list `[1, 2]` with cursor 0, three
consecutive `Next()` calls where the third call's shuffle transposes the
list return `1, 2, 2`; the contiguous window of `N = 2` calls formed by
calls 2 and 3 returns `2` twice and `1` not at all, even though the
transposition is a legitimate Fisher–Yates outcome. -/

theorem C8_counterexample :
    (runNexts [id, id, swapPerm] (⟨[1, 2], none, 0⟩ : ShuffleList Nat)).1 =
      [some 1, some 2, some 2] ∧
    some 1 ∉ ((runNexts [id, id, swapPerm]
      (⟨[1, 2], none, 0⟩ : ShuffleList Nat)).1.drop 1) ∧
    (∀ xs : List Nat, (swapPerm xs).Perm xs) :=
  ⟨by decide, by decide, swapPerm_perm⟩

/-- C8 witness: one aligned round of two calls on `[1, 2]` (identity
shuffle outcomes) returns each element exactly once. -/

theorem C8_round_coverage_witness :
    ∃ ys : List Nat,
      (runNexts [id, id] (⟨[1, 2], none, 0⟩ : ShuffleList Nat)).1 = ys.map some ∧
      ys.Perm [1, 2] ∧
      (([1, 2] : List Nat).Nodup → ∀ a ∈ ([1, 2] : List Nat), ys.count a = 1) :=
  C8_round_coverage (⟨[1, 2], none, 0⟩ : ShuffleList Nat) [id, id] rfl rfl
    (by decide) (Or.inl rfl)
    (by
      intro p hp xs
      simp only [List.mem_cons, List.not_mem_nil, or_false] at hp
      rcases hp with h | h <;> subst h <;> exact List.Perm.refl _)


/-! ### Broker piggybacking (broker.go, revision with `Event.Source`) -/


theorem attachBroadcasts_spec (toId : Nat) :
    ∀ l : List Broadcast,
      (attachBroadcasts toId l).1 =
        (l.filter (fun b => toId != b.Event.Source)).map (·.Event) ∧
      (attachBroadcasts toId l).2 =
        l.map (fun b => if toId ≠ b.Event.Source then
          { b with Attempts := b.Attempts + 1 } else b) := by
  intro l
  induction l with
  | nil => exact ⟨rfl, rfl⟩
  | cons b rest ih =>
    rw [attachBroadcasts]
    by_cases hb : toId ≠ b.Event.Source
    · simp only [if_pos hb, List.filter_cons, List.map_cons]
      rw [if_pos (by simpa using hb)]
      simp [ih.1, ih.2, hb]
    · simp only [if_neg hb, List.filter_cons, List.map_cons]
      rw [if_neg (by simpa using hb)]
      simp [ih.1, ih.2, hb]

/-- C9 (amended): the only recipient filter in the piggyback loop is the
source check — an event is attached to a message for recipient `toId` iff its
broadcast is within the budget and its source differs from `toId`, and each
attached broadcast has its `Attempts` incremented; there is no
`delivered_to` set, so nothing prevents the same broadcast from being
attached again on a later message to the same recipient. -/

theorem C9_piggyback_amended (toId : Nat) (m : Message) (bcasts : List Broadcast)
    (max : Nat) :
    (encodeWithBroadcasts toId m bcasts max).1.events =
      m.events ++
        ((bcasts.take max).filter (fun b => toId != b.Event.Source)).map (·.Event) ∧
    (∀ e ∈ (attachBroadcasts toId (bcasts.take max)).1, e.Source ≠ toId) ∧
    (encodeWithBroadcasts toId m bcasts max).2 =
      ((bcasts.take max).map (fun b => if toId ≠ b.Event.Source then
        { b with Attempts := b.Attempts + 1 } else b)) ++ bcasts.drop max := by
  have h := attachBroadcasts_spec toId (bcasts.take max)
  refine ⟨by simp [encodeWithBroadcasts, h.1], ?_, by simp [encodeWithBroadcasts, h.2]⟩
  intro e he
  rw [h.1] at he
  simp only [List.mem_map, List.mem_filter] at he
  obtain ⟨b, ⟨-, hbs⟩, rfl⟩ := he
  simp only [bne_iff_ne, ne_eq] at hbs
  omega

/-- C9 counterexample: with no `delivered_to` tracking, an Alive broadcast
from source 1 about node 3 is attached to two successive messages for the
same recipient 2, its attempts reaching 2 — the claim requires the second
attachment to be suppressed. -/

theorem C9_counterexample :
    (encodeWithBroadcasts 2 (Message.mk 1 2 0 [])
        [Broadcast.mk 2 0 (.alive 1 ⟨3, .alive, 1⟩) none 0] 1).1.events =
      [.alive 1 ⟨3, .alive, 1⟩] ∧
    (encodeWithBroadcasts 2 (Message.mk 1 2 0 [])
        ((encodeWithBroadcasts 2 (Message.mk 1 2 0 [])
          [Broadcast.mk 2 0 (.alive 1 ⟨3, .alive, 1⟩) none 0] 1).2) 1).1.events =
      [.alive 1 ⟨3, .alive, 1⟩] ∧
    (encodeWithBroadcasts 2 (Message.mk 1 2 0 [])
        ((encodeWithBroadcasts 2 (Message.mk 1 2 0 [])
          [Broadcast.mk 2 0 (.alive 1 ⟨3, .alive, 1⟩) none 0] 1).2) 1).2 =
      [Broadcast.mk 2 2 (.alive 1 ⟨3, .alive, 1⟩) none 0] := by
  decide


/-! ### Detector state updates (detector.go) -/


/-- C1 (evaluation of the code at the failing input): the local node has
incarnation 5 and receives `Suspect(self, 3)` whose incarnation is strictly
older (`compare(3, 5) = -1`, so `compare(j, local) ≥ 0` fails); the
dispute condition `cmp < 0 || state != Alive` nevertheless fires, bumping
the local incarnation to 6 and broadcasting `Alive(self, 6)` — the
refutation rule of the spec, and the code's own comment ("if our
incarnation number is the same but the state isn't alive"), require the
stale claim to be dropped. -/
theorem C1_refutation_code_eval :
    seqCompare 3 5 = -1 ∧
    (handleSuspect (Detector.mk 1 .alive 5 5 [] [] [] []) 2 1 3).LocalIncarnation = 6 ∧
    (handleSuspect (Detector.mk 1 .alive 5 5 [] [] [] []) 2 1 3).bcastLog =
      [.alive 1 ⟨1, .alive, 6⟩] := by
  decide

/-- C2 (evaluation of the code at the failing input): peer 7 is Dead at
incarnation 5; handling `Alive(7, 3)` with a strictly older incarnation
(`compare(node=5, event=3) = +1`) takes the `cmp > 0` branch, which calls
`stateUpdate(node, Alive, false)` — reverting the record to Alive while its
incarnation still holds 5, re-adding it to the active set, and broadcasting
`Alive(7)` — where the claim (and the "we have an update to broadcast"
comment) requires the peer's state to stay Dead. -/

theorem C2_dead_reverted_code_eval :
    seqCompare 5 3 = 1 ∧
    lookupId 7 (handleAlive (Detector.mk 1 .alive 9 9 [(7, ⟨7, .dead, 5⟩)] [] [] [])
        2 ⟨7, .alive, 3⟩).nodeMap = some ⟨7, .alive, 5⟩ ∧
    7 ∈ (handleAlive (Detector.mk 1 .alive 9 9 [(7, ⟨7, .dead, 5⟩)] [] [] [])
        2 ⟨7, .alive, 3⟩).actives ∧
    (handleAlive (Detector.mk 1 .alive 9 9 [(7, ⟨7, .dead, 5⟩)] [] [] [])
        2 ⟨7, .alive, 3⟩).bcastLog = [.alive 1 ⟨7, .alive, 5⟩] := by
  decide

end Swim
